import Mathlib

/-!
# osgEarth `TileKey`: quadtree tile addressing

A shallow embedding of `src/osgEarth/TileKey.cpp`.

* `unsigned int` is a natural number below `UINT_RANGE = 2^32`; every
  addition and multiplication of the source is followed by `% UINT_RANGE`.
* `double` coordinates are read as exact rationals.
* The lazily filled array `_subkeys[4]` is part of the state of a key: a
  call of `getSubkey` yields the key it returns together with the state of
  the receiver after the call.
* An index beyond `_subkeys` is undefined in C++; the embedding records it
  as `Fault.UndefinedBehaviour`, and so it does a shift by 32 or more and a
  conversion of a `double` outside the range of `int`.
* `int` results are integers; an `unsigned int` above 2147483647 converted to
  `int` is read in two's complement.
-/

namespace osgEarth

/-- Number of values of the C++ type `unsigned int`. -/
def UINT_RANGE : Nat := 2 ^ 32

/-- Opaque identity of a spatial reference system, as returned by `Profile::getSRS`. -/
structure SpatialReference where
  handle : Nat
  deriving DecidableEq, Repr

/-- Class `GeoExtent` as built by `GeoExtent(srs, xmin, ymin, xmax, ymax)`. -/
structure GeoExtent where
  srs : SpatialReference
  xMin : ℚ
  yMin : ℚ
  xMax : ℚ
  yMax : ℚ
  deriving DecidableEq, Repr

/-- Modelled from the spec: the enumeration `Profile::ProfileType` is declared in a
header that is not part of the sources; section 6 gives the coordinate system
kind as one of geodetic, mercator and local/projected, and `TileKey.cpp` names
the three tags below. -/
inductive ProfileType where
  | TYPE_GEODETIC
  | TYPE_MERCATOR
  | TYPE_LOCAL
  deriving DecidableEq, Repr

/-- Modelled from the spec: class `Profile` is declared outside the sources; these
are the four queries `TileKey.cpp` makes of it (`getExtent`, `getTileDimensions`,
`getSRS`, `getProfileType`), section 6 of the specification. -/
structure Profile where
  getExtent : GeoExtent
  getTileDimensions : Nat → ℚ × ℚ
  getSRS : SpatialReference
  getProfileType : ProfileType

/-- Class `TileKey`: the fields `_x`, `_y`, `_lod`, `_profile` and the four
slots of `_subkeys`, each either null (`none`) or an owned key. -/
inductive TileKey where
  | mk (_x _y _lod : Nat) (_profile : Profile)
      (_subkeys0 _subkeys1 _subkeys2 _subkeys3 : Option TileKey) : TileKey

/-- The ways a call can go wrong. `InvalidArgument` and `ArithmeticOverflow`
are the checked errors named by section 7 of the specification; the source
raises neither. `UndefinedBehaviour` marks an access `_subkeys[quadrant]`
outside the four slots of the array. -/
inductive Fault where
  | InvalidArgument
  | ArithmeticOverflow
  | UndefinedBehaviour
  deriving DecidableEq, Repr

namespace TileKey

/-- Field `_x`. -/
def _x : TileKey → Nat
  | mk x _ _ _ _ _ _ _ => x

/-- Field `_y`. -/
def _y : TileKey → Nat
  | mk _ y _ _ _ _ _ _ => y

/-- Field `_lod`. -/
def _lod : TileKey → Nat
  | mk _ _ lod _ _ _ _ _ => lod

/-- Field `_profile`. -/
def _profile : TileKey → Profile
  | mk _ _ _ profile _ _ _ _ => profile

/-- Read of `_subkeys[quadrant]`. -/
def _subkeys : TileKey → Nat → Except Fault (Option TileKey)
  | mk _ _ _ _ s0 _ _ _, 0 => .ok s0
  | mk _ _ _ _ _ s1 _ _, 1 => .ok s1
  | mk _ _ _ _ _ _ s2 _, 2 => .ok s2
  | mk _ _ _ _ _ _ _ s3, 3 => .ok s3
  | _, _ => .error .UndefinedBehaviour

/-- Assignment `_subkeys[quadrant] = c` for a quadrant inside the array. -/
def setSubkey : TileKey → Nat → TileKey → TileKey
  | mk x y lod p _ s1 s2 s3, 0, c => mk x y lod p (some c) s1 s2 s3
  | mk x y lod p s0 _ s2 s3, 1, c => mk x y lod p s0 (some c) s2 s3
  | mk x y lod p s0 s1 _ s3, 2, c => mk x y lod p s0 s1 (some c) s3
  | mk x y lod p s0 s1 s2 _, 3, c => mk x y lod p s0 s1 s2 (some c)
  | k, _, _ => k

/-- Constructor `TileKey(tile_x, tile_y, lod, profile)`: the four fields are
set and every slot of `_subkeys` starts null. -/
def create (tile_x tile_y lod : Nat) (profile : Profile) : TileKey :=
  mk tile_x tile_y lod profile none none none none

/-- Method `TileKey::getLevelOfDetail`. -/
def getLevelOfDetail (k : TileKey) : Nat := k._lod

/-- Method `TileKey::getProfile`. -/
def getProfile (k : TileKey) : Profile := k._profile

/-- Method `TileKey::getSubkey`. The result is the key returned and the
receiver after the call. -/
def getSubkey (k : TileKey) (quadrant : Nat) : Except Fault (TileKey × TileKey) :=
  match k._subkeys quadrant with
  | .error e => .error e
  | .ok (some c) => .ok (c, k)
  | .ok none =>
    let lod := (k._lod + 1) % UINT_RANGE
    let x := (k._x * 2) % UINT_RANGE
    let y := (k._y * 2) % UINT_RANGE
    let xy : Nat × Nat :=
      if quadrant = 1 then ((x + 1) % UINT_RANGE, y)
      else if quadrant = 2 then (x, (y + 1) % UINT_RANGE)
      else if quadrant = 3 then ((x + 1) % UINT_RANGE, (y + 1) % UINT_RANGE)
      else (x, y)
    let c := create xy.1 xy.2 lod k._profile
    .ok (c, k.setSubkey quadrant c)

/-- Method `TileKey::createParentKey`; `none` is the `NULL` result. The
subtraction cannot wrap: it is reached only when `_lod` is not zero. -/
def createParentKey (k : TileKey) : Option TileKey :=
  if k._lod = 0 then none
  else
    let lod := k._lod - 1
    let x := k._x / 2
    let y := k._y / 2
    some (create x y lod k._profile)

/-- Two keys with equal `_x`, `_y`, `_lod` and `_profile`; the caches may differ. -/
def SameAddress (a b : TileKey) : Prop :=
  a._x = b._x ∧ a._y = b._y ∧ a._lod = b._lod ∧ a._profile = b._profile

/-- Invariant of the private array `_subkeys`: a slot that is not null holds a
key with the fields `getSubkey` computes for that quadrant on a key with an
empty cache, and that key satisfies the invariant too. The constructor
establishes it and `getSubkey`, the only writer of `_subkeys`, keeps it. -/
inductive CacheConsistent : TileKey → Prop where
  | intro (k : TileKey)
      (fields : ∀ q c, k._subkeys q = .ok (some c) →
        ∃ c0 s0, getSubkey (create k._x k._y k._lod k._profile) q = .ok (c0, s0) ∧ SameAddress c c0)
      (deep : ∀ q c, k._subkeys q = .ok (some c) → CacheConsistent c) :
      CacheConsistent k

/-- The global geodetic profile used in the examples: extent (-180, -90, 180, 90),
one tile of 360 by 180 at level 0, halved at every level. -/
def geodeticProfile : Profile where
  getExtent := ⟨⟨4326⟩, -180, -90, 180, 90⟩
  getTileDimensions := fun lod => (360 / 2 ^ lod, 180 / 2 ^ lod)
  getSRS := ⟨4326⟩
  getProfileType := .TYPE_GEODETIC

/-- A second profile, for statements that compare keys of different profiles. -/
def mercatorProfile : Profile where
  getExtent := ⟨⟨3857⟩, -20037508, -20037508, 20037508, 20037508⟩
  getTileDimensions := fun lod => (40075016 / 2 ^ lod, 40075016 / 2 ^ lod)
  getSRS := ⟨3857⟩
  getProfileType := .TYPE_MERCATOR

/-- Method `TileKey::str`: the stream `ss` receives `_lod`, "_", `_x`, "_",
`_y` in this order; `operator<<` on an `unsigned int` writes its decimal
digits, which is `Nat.repr`. -/
def str (k : TileKey) : String :=
  let ss : String := ""
  let ss := ss ++ Nat.repr k._lod
  let ss := ss ++ "_"
  let ss := ss ++ Nat.repr k._x
  let ss := ss ++ "_"
  let ss := ss ++ Nat.repr k._y
  ss

/-- Method `TileKey::getGeoExtent`, with the `double` values read as rationals. -/
def getGeoExtent (k : TileKey) : GeoExtent :=
  let dims := k._profile.getTileDimensions k._lod
  let width := dims.1
  let height := dims.2
  let xmin := k._profile.getExtent.xMin + (width * (k._x : ℚ))
  let ymax := k._profile.getExtent.yMax - (height * (k._y : ℚ))
  let xmax := xmin + width
  let ymin := ymax - height
  GeoExtent.mk k._profile.getSRS xmin ymin xmax ymax

/-- The number a list of decimal digit characters denotes, most significant
digit first, continuing the number `acc`: how a reader parses what
`operator<<` wrote. -/
def decimalValue (cs : List Char) (acc : Nat) : Nat :=
  cs.foldl (fun a c => 10 * a + (c.toNat - 48)) acc

/-- The key reached from `k` by calling `getSubkey` with the quadrants of
`path` in turn, each call made on the key the previous call returned. -/
def descend : TileKey → List Nat → Except Fault TileKey
  | k, [] => .ok k
  | k, q :: path =>
    match getSubkey k q with
    | .error e => .error e
    | .ok (c, _) => descend c path

/-- The geographic extent of the key `getSubkey k quadrant` returns. -/
def subkeyGeoExtent (k : TileKey) (quadrant : Nat) : Except Fault GeoExtent :=
  match getSubkey k quadrant with
  | .error e => .error e
  | .ok (c, _) => .ok (getGeoExtent c)

/-- Copy constructor `TileKey(const TileKey& rhs)`: `_x`, `_y`, `_lod` and
`_profile` are initialised from `rhs`; `_subkeys` is not mentioned, so its four
`ref_ptr` slots are default-constructed, that is null. -/
def copy (rhs : TileKey) : TileKey :=
  mk rhs._x rhs._y rhs._lod rhs._profile none none none none

/-- Conversion of an `unsigned int` value to the result type `int`: values up
to 2147483647 are kept, larger ones are read in two's complement. -/
def unsignedToInt (v : Nat) : Int :=
  if v < 2147483648 then (v : Int) else (v : Int) - 4294967296

/-- Conversion of a `double` to the result type `int`: the value is truncated
toward zero, and the conversion is undefined when the truncated value is not
a value of `int`. -/
def doubleToInt (d : ℚ) : Except Fault Int :=
  let t : Int := if 0 ≤ d then ⌊d⌋ else ⌈d⌉
  if -2147483648 ≤ t ∧ t ≤ 2147483647 then .ok t else .error .UndefinedBehaviour

namespace Static

/-- Static method `TileKey::getMapSizePixels(tile_size, lod)`, the expression
`tile_size << lod` on `unsigned int` converted to `int`. A shift by 32 or more
is undefined in C++. -/
def getMapSizePixels (tile_size lod : Nat) : Except Fault Int :=
  if lod < 32 then .ok (unsignedToInt ((tile_size * 2 ^ lod) % UINT_RANGE))
  else .error .UndefinedBehaviour

/-- Static method `TileKey::getMapSizeTiles(level)`, the expression
`pow(2.0, (double)level)` converted to `int`; `pow` is read as the exact power. -/
def getMapSizeTiles (level : Nat) : Except Fault Int :=
  doubleToInt ((2 : ℚ) ^ level)

end Static

/-- Method `TileKey::getMapSizePixels(tile_size)`. -/
def getMapSizePixels (k : TileKey) (tile_size : Nat) : Except Fault Int :=
  Static.getMapSizePixels tile_size k.getLevelOfDetail

/-- Method `TileKey::getMapSizeTiles()`. -/
def getMapSizeTiles (k : TileKey) : Except Fault Int :=
  Static.getMapSizeTiles k.getLevelOfDetail

/-- Method `TileKey::isGeodetic`. -/
def isGeodetic (k : TileKey) : Bool :=
  k._profile.getProfileType == ProfileType.TYPE_GEODETIC

/-- Method `TileKey::isMercator`. -/
def isMercator (k : TileKey) : Bool :=
  k._profile.getProfileType == ProfileType.TYPE_MERCATOR

/-- Method `TileKey::isProjected`. -/
def isProjected (k : TileKey) : Bool :=
  k._profile.getProfileType == ProfileType.TYPE_LOCAL

end TileKey

namespace GeoExtent

/-- The point `(px, py)` lies in the closed rectangle of the extent. -/
def Covers (e : GeoExtent) (px py : ℚ) : Prop :=
  e.xMin ≤ px ∧ px ≤ e.xMax ∧ e.yMin ≤ py ∧ py ≤ e.yMax

/-- The point `(px, py)` lies in the interior of the rectangle of the extent. -/
def Inside (e : GeoExtent) (px py : ℚ) : Prop :=
  e.xMin < px ∧ px < e.xMax ∧ e.yMin < py ∧ py < e.yMax

instance (e : GeoExtent) (px py : ℚ) : Decidable (e.Covers px py) := by
  unfold Covers; infer_instance

instance (e : GeoExtent) (px py : ℚ) : Decidable (e.Inside px py) := by
  unfold Inside; infer_instance

end GeoExtent

end osgEarth

/-! ## Theorems -/

namespace osgEarth.TileKey

theorem uint_range_eq : UINT_RANGE = 4294967296 := by
  unfold UINT_RANGE; norm_num

theorem subkeys_of_ge (k : TileKey) (q : Nat) (hq : 4 ≤ q) :
    k._subkeys q = .error .UndefinedBehaviour := by
  cases k
  rcases q with _ | _ | _ | _ | q
  · omega
  · omega
  · omega
  · omega
  · rfl

theorem subkeys_create (tx ty l : Nat) (p : Profile) (q : Nat) (c : TileKey) :
    (create tx ty l p)._subkeys q ≠ .ok (some c) := by
  rcases q with _ | _ | _ | _ | q <;> simp [create, _subkeys]

theorem cacheConsistent_create (tx ty l : Nat) (p : Profile) :
    CacheConsistent (create tx ty l p) := by
  refine CacheConsistent.intro _ ?_ ?_
  · intro q c h; exact absurd h (subkeys_create _ _ _ _ _ _)
  · intro q c h; exact absurd h (subkeys_create _ _ _ _ _ _)

theorem getSubkey_create (tx ty l : Nat) (p : Profile) (q : Nat) (hq : q < 4) :
    ∃ c s, getSubkey (create tx ty l p) q = .ok (c, s) ∧
      c = create ((2 * tx + if q = 1 ∨ q = 3 then 1 else 0) % UINT_RANGE)
            ((2 * ty + if q = 2 ∨ q = 3 then 1 else 0) % UINT_RANGE)
            ((l + 1) % UINT_RANGE) p := by
  have h4 : q = 0 ∨ q = 1 ∨ q = 2 ∨ q = 3 := by omega
  rcases h4 with rfl | rfl | rfl | rfl <;>
    simp [getSubkey, create, _subkeys, _x, _y, _lod, _profile, uint_range_eq] <;> omega

theorem subkeys_of_lt (k : TileKey) (q : Nat) (hq : q < 4) :
    ∃ o, k._subkeys q = .ok o := by
  cases k
  have h4 : q = 0 ∨ q = 1 ∨ q = 2 ∨ q = 3 := by omega
  rcases h4 with rfl | rfl | rfl | rfl <;> exact ⟨_, rfl⟩

theorem subkeys_setSubkey (k c : TileKey) (q q1 : Nat) (hq : q < 4) :
    (k.setSubkey q c)._subkeys q1 = if q1 = q then .ok (some c) else k._subkeys q1 := by
  cases k
  have h4 : q = 0 ∨ q = 1 ∨ q = 2 ∨ q = 3 := by omega
  rcases h4 with rfl | rfl | rfl | rfl <;>
    rcases q1 with _ | _ | _ | _ | q1 <;> simp [setSubkey, _subkeys]

theorem sameAddress_setSubkey (k c : TileKey) (q : Nat) :
    SameAddress (k.setSubkey q c) k := by
  cases k
  rcases q with _ | _ | _ | _ | q <;> simp [setSubkey, SameAddress, _x, _y, _lod, _profile]

theorem cacheConsistent_setSubkey (k c : TileKey) (q : Nat) (hq : q < 4)
    (hk : CacheConsistent k) (hc : CacheConsistent c)
    (hf : ∃ c0 s0, getSubkey (create k._x k._y k._lod k._profile) q = .ok (c0, s0) ∧
      SameAddress c c0) :
    CacheConsistent (k.setSubkey q c) := by
  obtain ⟨_, fields, deep⟩ := hk
  obtain ⟨hx, hy, hl, hp⟩ := sameAddress_setSubkey k c q
  refine CacheConsistent.intro _ ?_ ?_
  · intro q1 c1 h1
    rw [subkeys_setSubkey k c q q1 hq] at h1
    rw [hx, hy, hl, hp]
    by_cases e : q1 = q
    · subst e
      simp at h1
      subst h1
      exact hf
    · rw [if_neg e] at h1
      exact fields q1 c1 h1
  · intro q1 c1 h1
    rw [subkeys_setSubkey k c q q1 hq] at h1
    by_cases e : q1 = q
    · subst e
      simp at h1
      subst h1
      exact hc
    · rw [if_neg e] at h1
      exact deep q1 c1 h1

/-- On a key whose cache is consistent, `getSubkey` with a quadrant below 4
returns a key with the derived fields, whether it was cached or is created by
the call, and the receiver keeps its fields and a consistent cache. -/
theorem getSubkey_consistent (k : TileKey) (q : Nat) (hk : CacheConsistent k) (hq : q < 4) :
    ∃ c s, getSubkey k q = .ok (c, s) ∧
      c._x = (2 * k._x + if q = 1 ∨ q = 3 then 1 else 0) % UINT_RANGE ∧
      c._y = (2 * k._y + if q = 2 ∨ q = 3 then 1 else 0) % UINT_RANGE ∧
      c._lod = (k._lod + 1) % UINT_RANGE ∧
      c._profile = k._profile ∧
      CacheConsistent c ∧ CacheConsistent s ∧ SameAddress s k := by
  obtain ⟨c0, s0, h0, hc0⟩ := getSubkey_create k._x k._y k._lod k._profile q hq
  obtain ⟨o, ho⟩ := subkeys_of_lt k q hq
  cases o with
  | some c =>
    have hg : getSubkey k q = .ok (c, k) := by
      unfold getSubkey; rw [ho]
    obtain ⟨_, fields, deep⟩ := id hk
    obtain ⟨c1, s1, h1, hx, hy, hl, hp⟩ := fields q c ho
    rw [h0] at h1
    simp only [Except.ok.injEq, Prod.mk.injEq] at h1
    obtain ⟨rfl, -⟩ := h1
    refine ⟨c, k, hg, ?_, ?_, ?_, ?_, deep q c ho, hk, ⟨rfl, rfl, rfl, rfl⟩⟩
    · rw [hx, hc0]; rfl
    · rw [hy, hc0]; rfl
    · rw [hl, hc0]; rfl
    · rw [hp, hc0]; rfl
  | none =>
    have hfresh : (create k._x k._y k._lod k._profile)._subkeys q = .ok none := by
      have h4 : q = 0 ∨ q = 1 ∨ q = 2 ∨ q = 3 := by omega
      rcases h4 with rfl | rfl | rfl | rfl <;> rfl
    have hg : getSubkey k q = .ok (c0, k.setSubkey q c0) := by
      have h0c := h0
      unfold getSubkey at h0c ⊢
      rw [ho]
      rw [hfresh] at h0c
      simp only [Except.ok.injEq, Prod.mk.injEq] at h0c ⊢
      refine ⟨?_, ?_⟩
      · rw [← h0c.1]; rfl
      · rw [← h0c.1]; rfl
    have hcc : CacheConsistent c0 := by rw [hc0]; exact cacheConsistent_create _ _ _ _
    refine ⟨c0, k.setSubkey q c0, hg, ?_, ?_, ?_, ?_, hcc, ?_, sameAddress_setSubkey k c0 q⟩
    · rw [hc0]; rfl
    · rw [hc0]; rfl
    · rw [hc0]; rfl
    · rw [hc0]; rfl
    · exact cacheConsistent_setSubkey k c0 q hq hk hcc ⟨c0, s0, h0, rfl, rfl, rfl, rfl⟩

theorem createParentKey_of_pos (k : TileKey) (h : k._lod ≠ 0) :
    createParentKey k = some (create (k._x / 2) (k._y / 2) (k._lod - 1) k._profile) := by
  unfold createParentKey
  rw [if_neg h]

/-! ### C1: round trip of subdivision -/

/-- C1, counterexample: two valid addresses on which `createParentKey` after
`getSubkey` does not give the address back. At level 4294967295 the level of
the subkey wraps to 0 and it has no parent; at column 2147483648 of level 32
the column of the subkey wraps to 0 and the parent has column 0. -/
theorem createParentKey_getSubkey_counterexample :
    ((create 0 0 4294967295 geodeticProfile)._x < 2 ^ (create 0 0 4294967295 geodeticProfile)._lod ∧
      (create 0 0 4294967295 geodeticProfile)._y < 2 ^ (create 0 0 4294967295 geodeticProfile)._lod ∧
      (create 0 0 4294967295 geodeticProfile)._lod < UINT_RANGE ∧
      ∃ c s, getSubkey (create 0 0 4294967295 geodeticProfile) 0 = .ok (c, s) ∧
        createParentKey c = none) ∧
    ((create 2147483648 0 32 geodeticProfile)._x < 2 ^ (create 2147483648 0 32 geodeticProfile)._lod ∧
      (create 2147483648 0 32 geodeticProfile)._y < 2 ^ (create 2147483648 0 32 geodeticProfile)._lod ∧
      ∃ c s p, getSubkey (create 2147483648 0 32 geodeticProfile) 0 = .ok (c, s) ∧
        createParentKey c = some p ∧ p._x = 0 ∧
        p._x ≠ (create 2147483648 0 32 geodeticProfile)._x) := by
  refine ⟨⟨Nat.pow_pos (by norm_num), Nat.pow_pos (by norm_num), by decide, _, _, rfl, rfl⟩,
    ⟨by decide, by decide, _, _, _, rfl, rfl, rfl, by decide⟩⟩

/-- C1, amended: for every address with level below 4294967295 and column and row
below 2^31 (every valid address of a level up to 31 is one) and every quadrant
0 to 3, `getSubkey` returns a key whose `createParentKey` exists and has the
level, column, row and profile of the address. -/
theorem createParentKey_getSubkey (k : TileKey) (q : Nat) (hk : CacheConsistent k)
    (hq : q < 4) (hl : k._lod + 1 < UINT_RANGE) (hx : k._x < 2 ^ 31) (hy : k._y < 2 ^ 31) :
    ∃ c s p, getSubkey k q = .ok (c, s) ∧ createParentKey c = some p ∧
      p._lod = k._lod ∧ p._x = k._x ∧ p._y = k._y ∧ p._profile = k._profile := by
  obtain ⟨c, s, hg, cx, cy, cl, cp, -, -, -⟩ := getSubkey_consistent k q hk hq
  rw [uint_range_eq] at hl cx cy cl
  have hne : c._lod ≠ 0 := by omega
  refine ⟨c, s, _, hg, createParentKey_of_pos c hne, ?_, ?_, ?_, cp⟩
  · show c._lod - 1 = k._lod
    omega
  · show c._x / 2 = k._x
    rw [cx]
    split <;> omega
  · show c._y / 2 = k._y
    rw [cy]
    split <;> omega

/-- C1, witness: the address (3, 2) of level 2 and quadrant 3. -/
theorem createParentKey_getSubkey_witness :
    CacheConsistent (create 3 2 2 geodeticProfile) ∧ 3 < 4 ∧
    (create 3 2 2 geodeticProfile)._lod + 1 < UINT_RANGE ∧
    (create 3 2 2 geodeticProfile)._x < 2 ^ 31 ∧ (create 3 2 2 geodeticProfile)._y < 2 ^ 31 ∧
    ∃ c s p, getSubkey (create 3 2 2 geodeticProfile) 3 = .ok (c, s) ∧
      createParentKey c = some p ∧
      p._lod = (create 3 2 2 geodeticProfile)._lod ∧ p._x = (create 3 2 2 geodeticProfile)._x ∧
      p._y = (create 3 2 2 geodeticProfile)._y ∧
      p._profile = (create 3 2 2 geodeticProfile)._profile :=
  ⟨cacheConsistent_create _ _ _ _, by decide, by decide, by decide, by decide,
    createParentKey_getSubkey (create 3 2 2 geodeticProfile) 3
      (cacheConsistent_create _ _ _ _) (by decide) (by decide) (by decide) (by decide)⟩

/-! ### C4: derivation of a subkey -/

/-- C4, counterexample: at column 2147483648 of level 32 quadrant 1 gives
column 1, not 2 * 2147483648 + 1; at level 4294967295 the subkey has level 0,
not 4294967296. -/
theorem getSubkey_derivation_counterexample :
    (∃ c s, getSubkey (create 2147483648 0 32 geodeticProfile) 1 = .ok (c, s) ∧ c._x = 1 ∧
      c._x ≠ 2 * (create 2147483648 0 32 geodeticProfile)._x + 1) ∧
    (∃ c s, getSubkey (create 0 0 4294967295 geodeticProfile) 0 = .ok (c, s) ∧ c._lod = 0 ∧
      c._lod ≠ (create 0 0 4294967295 geodeticProfile)._lod + 1) := by
  refine ⟨⟨_, _, rfl, rfl, by decide⟩, ⟨_, _, rfl, rfl, by decide⟩⟩

/-- C4, amended: for every address and every quadrant 0 to 3, `getSubkey`
returns a key of the same profile whose level is level + 1, whose column is
2 * column plus 1 for quadrants 1 and 3, and whose row is 2 * row plus 1 for
quadrants 2 and 3, each reduced modulo 2^32; the reduction changes nothing
when level + 1, 2 * column + 1 and 2 * row + 1 are below 2^32. -/
theorem getSubkey_derivation (k : TileKey) (q : Nat) (hk : CacheConsistent k) (hq : q < 4) :
    ∃ c s, getSubkey k q = .ok (c, s) ∧
      c._lod = (k._lod + 1) % 2 ^ 32 ∧
      c._profile = k._profile ∧
      c._x = (2 * k._x + if q = 1 ∨ q = 3 then 1 else 0) % 2 ^ 32 ∧
      c._y = (2 * k._y + if q = 2 ∨ q = 3 then 1 else 0) % 2 ^ 32 ∧
      (k._lod + 1 < 2 ^ 32 → c._lod = k._lod + 1) ∧
      (2 * k._x + 1 < 2 ^ 32 → c._x = 2 * k._x + if q = 1 ∨ q = 3 then 1 else 0) ∧
      (2 * k._y + 1 < 2 ^ 32 → c._y = 2 * k._y + if q = 2 ∨ q = 3 then 1 else 0) := by
  obtain ⟨c, s, hg, cx, cy, cl, cp, -, -, -⟩ := getSubkey_consistent k q hk hq
  rw [UINT_RANGE] at cx cy cl
  refine ⟨c, s, hg, cl, cp, cx, cy, ?_, ?_, ?_⟩
  · intro h
    rw [cl]; exact Nat.mod_eq_of_lt h
  · intro h
    rw [cx]; apply Nat.mod_eq_of_lt
    split <;> omega
  · intro h
    rw [cy]; apply Nat.mod_eq_of_lt
    split <;> omega

/-- C4, witness: quadrant 3 of the address (3, 2) of level 2 is (7, 5) of level 3. -/
theorem getSubkey_derivation_witness :
    CacheConsistent (create 3 2 2 geodeticProfile) ∧ 3 < 4 ∧
    ∃ c s, getSubkey (create 3 2 2 geodeticProfile) 3 = .ok (c, s) ∧
      c._lod = ((create 3 2 2 geodeticProfile)._lod + 1) % 2 ^ 32 ∧
      c._profile = (create 3 2 2 geodeticProfile)._profile ∧
      c._x = (2 * (create 3 2 2 geodeticProfile)._x + if 3 = 1 ∨ 3 = 3 then 1 else 0) % 2 ^ 32 ∧
      c._y = (2 * (create 3 2 2 geodeticProfile)._y + if 3 = 2 ∨ 3 = 3 then 1 else 0) % 2 ^ 32 ∧
      ((create 3 2 2 geodeticProfile)._lod + 1 < 2 ^ 32 →
        c._lod = (create 3 2 2 geodeticProfile)._lod + 1) ∧
      (2 * (create 3 2 2 geodeticProfile)._x + 1 < 2 ^ 32 →
        c._x = 2 * (create 3 2 2 geodeticProfile)._x + if 3 = 1 ∨ 3 = 3 then 1 else 0) ∧
      (2 * (create 3 2 2 geodeticProfile)._y + 1 < 2 ^ 32 →
        c._y = 2 * (create 3 2 2 geodeticProfile)._y + if 3 = 2 ∨ 3 = 3 then 1 else 0) :=
  ⟨cacheConsistent_create _ _ _ _, by decide,
    getSubkey_derivation (create 3 2 2 geodeticProfile) 3 (cacheConsistent_create _ _ _ _)
      (by decide)⟩

/-! ### C5 and C6: the parent -/

/-- C5: for every address with level above 0, `createParentKey` returns a
key with level - 1, column / 2 and row / 2 (floor division) and the same
profile; the key is new, its cache is empty. -/
theorem createParentKey_derivation (k : TileKey) (h : 0 < k._lod) :
    ∃ p, createParentKey k = some p ∧
      p._lod = k._lod - 1 ∧ p._x = k._x / 2 ∧ p._y = k._y / 2 ∧ p._profile = k._profile ∧
      p = create (k._x / 2) (k._y / 2) (k._lod - 1) k._profile :=
  ⟨_, createParentKey_of_pos k (by omega), rfl, rfl, rfl, rfl, rfl⟩

/-- C5, witness: the parent of (7, 5) at level 3 is (3, 2) at level 2. -/
theorem createParentKey_derivation_witness :
    0 < (create 7 5 3 mercatorProfile)._lod ∧
    ∃ p, createParentKey (create 7 5 3 mercatorProfile) = some p ∧
      p._lod = (create 7 5 3 mercatorProfile)._lod - 1 ∧
      p._x = (create 7 5 3 mercatorProfile)._x / 2 ∧
      p._y = (create 7 5 3 mercatorProfile)._y / 2 ∧
      p._profile = (create 7 5 3 mercatorProfile)._profile ∧
      p = create ((create 7 5 3 mercatorProfile)._x / 2) ((create 7 5 3 mercatorProfile)._y / 2)
        ((create 7 5 3 mercatorProfile)._lod - 1) (create 7 5 3 mercatorProfile)._profile :=
  ⟨by decide, createParentKey_derivation (create 7 5 3 mercatorProfile) (by decide)⟩

/-- C6: `createParentKey` returns `NULL` exactly when the level is 0, for
any column, row, profile and cache; in every other case it returns a key. -/
theorem createParentKey_eq_none_iff (k : TileKey) :
    (createParentKey k = none ↔ k._lod = 0) ∧
    (k._lod ≠ 0 → ∃ p, createParentKey k = some p) := by
  refine ⟨⟨?_, ?_⟩, ?_⟩
  · intro h
    by_contra hne
    rw [createParentKey_of_pos k hne] at h
    exact Option.noConfusion h
  · intro h
    unfold createParentKey
    rw [if_pos h]
  · intro hne
    exact ⟨_, createParentKey_of_pos k hne⟩

/-! ### C7: a quadrant outside the array -/

/-- C7, counterexample: on the root address, `getSubkey` with quadrant 4 is
the undefined access `_subkeys[4]`; it is not an `InvalidArgument` error. -/
theorem getSubkey_invalid_quadrant_counterexample :
    getSubkey (create 0 0 0 geodeticProfile) 4 = .error .UndefinedBehaviour ∧
    getSubkey (create 0 0 0 geodeticProfile) 4 ≠ .error .InvalidArgument := by
  refine ⟨rfl, ?_⟩
  intro h
  have h2 : getSubkey (create 0 0 0 geodeticProfile) 4 = .error .UndefinedBehaviour := rfl
  rw [h2] at h
  exact absurd h (by simp)

/-- C7, amended: for every address and every quadrant of 4 or more,
`getSubkey` makes no range check and raises no `InvalidArgument`: the call is
the undefined access to `_subkeys[quadrant]` outside the array and yields no
address; for the quadrants 0 to 3 the call never fails. -/
theorem getSubkey_invalid_quadrant (k : TileKey) (q : Nat) (hq : 4 ≤ q) :
    getSubkey k q = .error .UndefinedBehaviour ∧
    getSubkey k q ≠ .error .InvalidArgument ∧
    (∀ c s, getSubkey k q ≠ .ok (c, s)) ∧
    (∀ q1, q1 < 4 → ∃ c s, getSubkey k q1 = .ok (c, s)) := by
  have h : getSubkey k q = .error .UndefinedBehaviour := by
    unfold getSubkey
    rw [subkeys_of_ge k q hq]
  refine ⟨h, ?_, ?_, ?_⟩
  · rw [h]; simp
  · intro c s; rw [h]; simp
  · intro q1 h1
    obtain ⟨o, ho⟩ := subkeys_of_lt k q1 h1
    unfold getSubkey
    rw [ho]
    cases o <;> exact ⟨_, _, rfl⟩

/-- C7, witness: quadrant 4 on the address (3, 2) of level 2. -/
theorem getSubkey_invalid_quadrant_witness :
    4 ≤ 4 ∧
    getSubkey (create 3 2 2 geodeticProfile) 4 = .error .UndefinedBehaviour ∧
    getSubkey (create 3 2 2 geodeticProfile) 4 ≠ .error .InvalidArgument ∧
    (∀ c s, getSubkey (create 3 2 2 geodeticProfile) 4 ≠ .ok (c, s)) ∧
    (∀ q1, q1 < 4 → ∃ c s, getSubkey (create 3 2 2 geodeticProfile) q1 = .ok (c, s)) :=
  ⟨by decide, getSubkey_invalid_quadrant (create 3 2 2 geodeticProfile) 4 (by decide)⟩

/-! ### C2: quadtree bounds -/

theorem descend_append (p1 p2 : List Nat) (k : TileKey) :
    descend k (p1 ++ p2) =
      match descend k p1 with
      | .error e => .error e
      | .ok k1 => descend k1 p2 := by
  induction p1 generalizing k with
  | nil => rfl
  | cons q p1 ih =>
    simp only [List.cons_append, descend]
    cases hg : getSubkey k q with
    | error e => rfl
    | ok r => exact ih r.1

/-- Along a path of quadrants 0 to 3 the level grows by one per call, modulo
2^32, and a column and row below 2^m stay below 2^(m + length). -/
theorem descend_bounds (path : List Nat) (k : TileKey) (m : Nat) (hk : CacheConsistent k)
    (hq : ∀ q ∈ path, q < 4) (hx : k._x < 2 ^ m) (hy : k._y < 2 ^ m) :
    ∃ k1, descend k path = .ok k1 ∧ CacheConsistent k1 ∧ k1._profile = k._profile ∧
      k1._lod % UINT_RANGE = (k._lod + path.length) % UINT_RANGE ∧
      (path ≠ [] → k1._lod < UINT_RANGE) ∧
      k1._x < 2 ^ (m + path.length) ∧ k1._y < 2 ^ (m + path.length) := by
  induction path generalizing k m with
  | nil => exact ⟨k, rfl, hk, rfl, rfl, fun h => absurd rfl h, hx, hy⟩
  | cons q path ih =>
    obtain ⟨c, s, hg, cx, cy, cl, cp, hc, -, -⟩ :=
      getSubkey_consistent k q hk (hq q (List.mem_cons_self _ _))
    have hcx : c._x < 2 ^ (m + 1) := by
      rw [cx, pow_succ]
      refine lt_of_le_of_lt (Nat.mod_le _ _) ?_
      split <;> omega
    have hcy : c._y < 2 ^ (m + 1) := by
      rw [cy, pow_succ]
      refine lt_of_le_of_lt (Nat.mod_le _ _) ?_
      split <;> omega
    obtain ⟨k1, hd, hk1, hp1, hl1, hlt1, hx1, hy1⟩ :=
      ih c (m + 1) hc (fun q1 h1 => hq q1 (List.mem_cons_of_mem _ h1)) hcx hcy
    refine ⟨k1, ?_, hk1, hp1.trans cp, ?_, ?_, ?_, ?_⟩
    · simp only [descend, hg]
      exact hd
    · rw [hl1, cl, List.length_cons]
      rw [uint_range_eq]
      omega
    · intro _
      by_cases hnil : path = []
      · subst hnil
        simp only [descend] at hd
        cases hd
        rw [cl]
        exact Nat.mod_lt _ (by rw [uint_range_eq]; norm_num)
      · exact hlt1 hnil
    · rw [List.length_cons, show m + (path.length + 1) = m + 1 + path.length by omega]
      exact hx1
    · rw [List.length_cons, show m + (path.length + 1) = m + 1 + path.length by omega]
      exact hy1

/-- From column 4294967295 every further call with quadrant 1 gives column
4294967295 again. -/
theorem descend_replicate_saturated (n : Nat) (k : TileKey) (hk : CacheConsistent k)
    (hx : k._x = 4294967295) :
    ∃ k1, descend k (List.replicate n 1) = .ok k1 ∧ k1._x = 4294967295 ∧
      k1._lod % UINT_RANGE = (k._lod + n) % UINT_RANGE ∧ (0 < n → k1._lod < UINT_RANGE) := by
  induction n generalizing k with
  | zero => exact ⟨k, rfl, hx, rfl, fun h => absurd h (by decide)⟩
  | succ n ih =>
    obtain ⟨c, s, hg, cx, -, cl, -, hc, -, -⟩ := getSubkey_consistent k 1 hk (by decide)
    rw [uint_range_eq] at cx cl
    have hcx : c._x = 4294967295 := by
      rw [cx, hx]; rfl
    obtain ⟨k1, hd, hx1, hl1, hlt1⟩ := ih c hc hcx
    rw [uint_range_eq] at hl1 hlt1 ⊢
    refine ⟨k1, ?_, hx1, ?_, ?_⟩
    · simp only [List.replicate_succ, descend, hg]
      exact hd
    · omega
    · intro _
      rcases Nat.eq_zero_or_pos n with h0 | h0
      · subst h0
        simp only [List.replicate_zero, descend] at hd
        cases hd
        omega
      · exact hlt1 h0

/-- C2, counterexample: 4294967296 calls of `getSubkey` with quadrant 1,
starting at the root, reach level 0 again (the level wraps) with column
4294967295, which is not below 2^0. -/
theorem descend_root_bounds_counterexample :
    (∀ q ∈ List.replicate 4294967296 1, q < 4) ∧
    ∃ k, descend (create 0 0 0 geodeticProfile) (List.replicate 4294967296 1) = .ok k ∧
      k._lod = 0 ∧ k._x = 4294967295 ∧ ¬ (k._x < 2 ^ k._lod) := by
  refine ⟨fun q hq => by rw [List.eq_of_mem_replicate hq]; decide, ?_⟩
  obtain ⟨k1, h1, hk1, -, hl1, hlt1, -, -⟩ :=
    descend_bounds (List.replicate 32 1) (create 0 0 0 geodeticProfile) 0
      (cacheConsistent_create _ _ _ _)
      (fun q hq => by rw [List.eq_of_mem_replicate hq]; decide) (by decide) (by decide)
  have hx1 : k1._x = 4294967295 := by
    have e : (match descend (create 0 0 0 geodeticProfile) (List.replicate 32 1) with
        | .ok k => k._x
        | .error _ => 0) = 4294967295 := by decide
    rw [h1] at e
    exact e
  have hlod1 : k1._lod = 32 := by
    have e : (match descend (create 0 0 0 geodeticProfile) (List.replicate 32 1) with
        | .ok k => k._lod
        | .error _ => 0) = 32 := by decide
    rw [h1] at e
    exact e
  obtain ⟨k2, h2, hx2, hl2, hlt2⟩ := descend_replicate_saturated 4294967264 k1 hk1 hx1
  have hsplit : List.replicate 4294967296 1 =
      List.replicate 32 1 ++ List.replicate 4294967264 1 :=
    List.replicate_add 32 4294967264 1
  have hd : descend (create 0 0 0 geodeticProfile) (List.replicate 4294967296 1) = .ok k2 := by
    rw [hsplit, descend_append, h1]
    exact h2
  have hlod2 : k2._lod = 0 := by
    have hlt := hlt2 (by decide)
    rw [uint_range_eq] at hl2 hlt
    omega
  refine ⟨k2, hd, hlod2, hx2, ?_⟩
  rw [hlod2, hx2]
  decide

/-- C2, amended: every address reached from a root (column 0, row 0, level 0)
by fewer than 2^32 calls of `getSubkey` with quadrants 0 to 3 has a level
equal to the number of calls, and a column and a row below 2^level. -/
theorem descend_root_bounds (r : TileKey) (path : List Nat) (hr : CacheConsistent r)
    (hx : r._x = 0) (hy : r._y = 0) (hl : r._lod = 0) (hq : ∀ q ∈ path, q < 4)
    (hlen : path.length < 2 ^ 32) :
    ∃ k, descend r path = .ok k ∧ k._lod = path.length ∧
      k._x < 2 ^ k._lod ∧ k._y < 2 ^ k._lod := by
  obtain ⟨k, hd, -, -, hl1, hlt1, hx1, hy1⟩ :=
    descend_bounds path r 0 hr hq (by rw [hx]; decide) (by rw [hy]; decide)
  have hlod : k._lod = path.length := by
    rw [uint_range_eq] at hl1 hlt1
    by_cases hnil : path = []
    · subst hnil
      simp only [descend] at hd
      cases hd
      simpa using hl
    · have := hlt1 hnil
      norm_num at hlen
      omega
  rw [Nat.zero_add] at hx1 hy1
  exact ⟨k, hd, hlod, by rw [hlod]; exact hx1, by rw [hlod]; exact hy1⟩

/-- C2, witness: the path 1, 3, 0 from the root of the geodetic profile. -/
theorem descend_root_bounds_witness :
    CacheConsistent (create 0 0 0 geodeticProfile) ∧
    (create 0 0 0 geodeticProfile)._x = 0 ∧ (create 0 0 0 geodeticProfile)._y = 0 ∧
    (create 0 0 0 geodeticProfile)._lod = 0 ∧ (∀ q ∈ [1, 3, 0], q < 4) ∧
    [1, 3, 0].length < 2 ^ 32 ∧
    ∃ k, descend (create 0 0 0 geodeticProfile) [1, 3, 0] = .ok k ∧ k._lod = [1, 3, 0].length ∧
      k._x < 2 ^ k._lod ∧ k._y < 2 ^ k._lod :=
  ⟨cacheConsistent_create _ _ _ _, rfl, rfl, rfl, by decide, by decide,
    descend_root_bounds (create 0 0 0 geodeticProfile) [1, 3, 0]
      (cacheConsistent_create _ _ _ _) rfl rfl rfl (by decide) (by decide)⟩

/-! ### C3: the four subkeys tile the extent of the key -/

/-- The extent of the subkey of quadrant `q`, written with the corners of the
extent of the key, when nothing wraps and the tile dimensions halve. -/
theorem subkeyGeoExtent_corners (k : TileKey) (q : Nat) (hk : CacheConsistent k) (hq : q < 4)
    (hl : k._lod + 1 < 2 ^ 32) (hx : k._x < 2 ^ 31) (hy : k._y < 2 ^ 31)
    (hw : (k._profile.getTileDimensions (k._lod + 1)).1 =
      (k._profile.getTileDimensions k._lod).1 / 2)
    (hh : (k._profile.getTileDimensions (k._lod + 1)).2 =
      (k._profile.getTileDimensions k._lod).2 / 2) :
    ∃ e, subkeyGeoExtent k q = .ok e ∧
      e.xMin = (getGeoExtent k).xMin +
        (if q = 1 ∨ q = 3 then 1 else 0) * ((k._profile.getTileDimensions k._lod).1 / 2) ∧
      e.xMax = e.xMin + (k._profile.getTileDimensions k._lod).1 / 2 ∧
      e.yMax = (getGeoExtent k).yMax -
        (if q = 2 ∨ q = 3 then 1 else 0) * ((k._profile.getTileDimensions k._lod).2 / 2) ∧
      e.yMin = e.yMax - (k._profile.getTileDimensions k._lod).2 / 2 := by
  obtain ⟨c, s, hg, cx, cy, cl, cp, -, -, -⟩ := getSubkey_consistent k q hk hq
  rw [uint_range_eq] at cx cy cl
  have hcl : c._lod = k._lod + 1 := by omega
  have hcx : c._x = 2 * k._x + if q = 1 ∨ q = 3 then 1 else 0 := by
    rw [cx]; apply Nat.mod_eq_of_lt; split <;> omega
  have hcy : c._y = 2 * k._y + if q = 2 ∨ q = 3 then 1 else 0 := by
    rw [cy]; apply Nat.mod_eq_of_lt; split <;> omega
  refine ⟨getGeoExtent c, ?_, ?_, ?_, ?_, ?_⟩
  · simp only [subkeyGeoExtent, hg]
  · simp only [getGeoExtent, cp, hcl, hcx, hw]
    push_cast
    ring
  · simp only [getGeoExtent, cp, hcl, hw]
  · simp only [getGeoExtent, cp, hcl, hcy, hh]
    push_cast
    ring
  · simp only [getGeoExtent, cp, hcl, hh]

theorem geodeticProfile_halves (l : Nat) :
    (geodeticProfile.getTileDimensions (l + 1)).1 = (geodeticProfile.getTileDimensions l).1 / 2 ∧
    (geodeticProfile.getTileDimensions (l + 1)).2 = (geodeticProfile.getTileDimensions l).2 / 2 := by
  simp only [geodeticProfile, pow_succ]
  constructor <;> field_simp

/-- C3, counterexample: the valid address at column 2147483648 of level 32, in
a profile whose tile dimensions halve at every level. The column of its
subkey of quadrant 0 wraps to 0, so that subkey covers the point (-180, 90),
which the address, whose extent starts at x = 0, does not cover. -/
theorem subkey_extents_partition_counterexample :
    (create 2147483648 0 32 geodeticProfile)._x < 2 ^ (create 2147483648 0 32 geodeticProfile)._lod ∧
    (create 2147483648 0 32 geodeticProfile)._y < 2 ^ (create 2147483648 0 32 geodeticProfile)._lod ∧
    (∀ l, (geodeticProfile.getTileDimensions (l + 1)).1 =
        (geodeticProfile.getTileDimensions l).1 / 2 ∧
      (geodeticProfile.getTileDimensions (l + 1)).2 =
        (geodeticProfile.getTileDimensions l).2 / 2) ∧
    ∃ e0, subkeyGeoExtent (create 2147483648 0 32 geodeticProfile) 0 = .ok e0 ∧
      e0.Covers (-180) 90 ∧
      ¬ (getGeoExtent (create 2147483648 0 32 geodeticProfile)).Covers (-180) 90 := by
  refine ⟨by decide, by decide, geodeticProfile_halves, _, rfl, ?_, ?_⟩
  · simp only [GeoExtent.Covers, getGeoExtent, create, geodeticProfile, _profile, _lod, _x, _y,
      uint_range_eq]
    norm_num
  · simp only [GeoExtent.Covers, getGeoExtent, create, geodeticProfile, _profile, _lod, _x, _y]
    norm_num

/-- C3, amended: for every address with level below 4294967295 and column and
row below 2^31, in a profile whose tile width and height at level + 1 are half
those at the level, the extents of the four subkeys tile the extent of the
address: a point is covered by the address exactly when one of the four
covers it, and no point is inside two of them. -/
theorem subkey_extents_partition (k : TileKey) (hk : CacheConsistent k)
    (hl : k._lod + 1 < 2 ^ 32) (hx : k._x < 2 ^ 31) (hy : k._y < 2 ^ 31)
    (hw : (k._profile.getTileDimensions (k._lod + 1)).1 =
      (k._profile.getTileDimensions k._lod).1 / 2)
    (hh : (k._profile.getTileDimensions (k._lod + 1)).2 =
      (k._profile.getTileDimensions k._lod).2 / 2) :
    ∃ e : Nat → GeoExtent,
      (∀ q, q < 4 → subkeyGeoExtent k q = .ok (e q)) ∧
      (∀ px py, (getGeoExtent k).Covers px py ↔ ∃ q, q < 4 ∧ (e q).Covers px py) ∧
      (∀ q1 q2, q1 < 4 → q2 < 4 → q1 ≠ q2 →
        ∀ px py, ¬ ((e q1).Inside px py ∧ (e q2).Inside px py)) := by
  obtain ⟨e0, g0, a0, b0, c0, d0⟩ := subkeyGeoExtent_corners k 0 hk (by decide) hl hx hy hw hh
  obtain ⟨e1, g1, a1, b1, c1, d1⟩ := subkeyGeoExtent_corners k 1 hk (by decide) hl hx hy hw hh
  obtain ⟨e2, g2, a2, b2, c2, d2⟩ := subkeyGeoExtent_corners k 2 hk (by decide) hl hx hy hw hh
  obtain ⟨e3, g3, a3, b3, c3, d3⟩ := subkeyGeoExtent_corners k 3 hk (by decide) hl hx hy hw hh
  have pX : (getGeoExtent k).xMax =
      (getGeoExtent k).xMin + (k._profile.getTileDimensions k._lod).1 := rfl
  have pY : (getGeoExtent k).yMin =
      (getGeoExtent k).yMax - (k._profile.getTileDimensions k._lod).2 := rfl
  norm_num at a0 a1 a2 a3 c0 c1 c2 c3
  generalize (k._profile.getTileDimensions k._lod).1 = w at *
  generalize (k._profile.getTileDimensions k._lod).2 = h at *
  generalize getGeoExtent k = P at *
  refine ⟨fun q => if q = 0 then e0 else if q = 1 then e1 else if q = 2 then e2 else e3,
    ?_, ?_, ?_⟩
  · intro q hq
    have h4 : q = 0 ∨ q = 1 ∨ q = 2 ∨ q = 3 := by omega
    rcases h4 with rfl | rfl | rfl | rfl
    · simpa using g0
    · simpa using g1
    · simpa using g2
    · simpa using g3
  · clear hk hl hx hy hw hh g0 g1 g2 g3
    intro px py
    constructor
    · rintro ⟨h1, h2, h3, h4⟩
      by_cases hxm : px ≤ P.xMin + w / 2
      · by_cases hym : P.yMax - h / 2 ≤ py
        · refine ⟨0, by decide, ?_⟩
          simp only [GeoExtent.Covers, if_true]
          refine ⟨?_, ?_, ?_, ?_⟩ <;> linarith
        · refine ⟨2, by decide, ?_⟩
          simp only [GeoExtent.Covers]
          norm_num
          refine ⟨?_, ?_, ?_, ?_⟩ <;> linarith
      · by_cases hym : P.yMax - h / 2 ≤ py
        · refine ⟨1, by decide, ?_⟩
          simp only [GeoExtent.Covers]
          norm_num
          refine ⟨?_, ?_, ?_, ?_⟩ <;> linarith
        · refine ⟨3, by decide, ?_⟩
          simp only [GeoExtent.Covers]
          norm_num
          refine ⟨?_, ?_, ?_, ?_⟩ <;> linarith
    · rintro ⟨q, hq, hc⟩
      have h4 : q = 0 ∨ q = 1 ∨ q = 2 ∨ q = 3 := by omega
      clear hq
      rcases h4 with rfl | rfl | rfl | rfl <;>
        · simp only [GeoExtent.Covers] at hc ⊢
          norm_num at hc
          obtain ⟨h1, h2, h3, h4⟩ := hc
          refine ⟨?_, ?_, ?_, ?_⟩ <;> linarith
  · clear hk hl hx hy hw hh g0 g1 g2 g3
    intro q1 q2 hq1 hq2 hne px py
    have h4 : q1 = 0 ∨ q1 = 1 ∨ q1 = 2 ∨ q1 = 3 := by omega
    have h5 : q2 = 0 ∨ q2 = 1 ∨ q2 = 2 ∨ q2 = 3 := by omega
    clear hq1 hq2
    rcases h4 with rfl | rfl | rfl | rfl <;> rcases h5 with rfl | rfl | rfl | rfl <;>
      first
      | exact absurd rfl hne
      | (clear hne
         simp only [GeoExtent.Inside]
         norm_num
         intro h1 h2 h3 h4 h5 h6 h7
         linarith)

/-- C3, witness: the address (3, 2) of level 2 of the geodetic profile. -/
theorem subkey_extents_partition_witness :
    CacheConsistent (create 3 2 2 geodeticProfile) ∧
    (create 3 2 2 geodeticProfile)._lod + 1 < 2 ^ 32 ∧
    (create 3 2 2 geodeticProfile)._x < 2 ^ 31 ∧ (create 3 2 2 geodeticProfile)._y < 2 ^ 31 ∧
    ((create 3 2 2 geodeticProfile)._profile.getTileDimensions
        ((create 3 2 2 geodeticProfile)._lod + 1)).1 =
      ((create 3 2 2 geodeticProfile)._profile.getTileDimensions
        (create 3 2 2 geodeticProfile)._lod).1 / 2 ∧
    ((create 3 2 2 geodeticProfile)._profile.getTileDimensions
        ((create 3 2 2 geodeticProfile)._lod + 1)).2 =
      ((create 3 2 2 geodeticProfile)._profile.getTileDimensions
        (create 3 2 2 geodeticProfile)._lod).2 / 2 ∧
    ∃ e : Nat → GeoExtent,
      (∀ q, q < 4 → subkeyGeoExtent (create 3 2 2 geodeticProfile) q = .ok (e q)) ∧
      (∀ px py, (getGeoExtent (create 3 2 2 geodeticProfile)).Covers px py ↔
        ∃ q, q < 4 ∧ (e q).Covers px py) ∧
      (∀ q1 q2, q1 < 4 → q2 < 4 → q1 ≠ q2 →
        ∀ px py, ¬ ((e q1).Inside px py ∧ (e q2).Inside px py)) :=
  ⟨cacheConsistent_create _ _ _ _, by decide, by decide, by decide,
    (geodeticProfile_halves 2).1, (geodeticProfile_halves 2).2,
    subkey_extents_partition (create 3 2 2 geodeticProfile) (cacheConsistent_create _ _ _ _)
      (by decide) (by decide) (by decide)
      (geodeticProfile_halves 2).1 (geodeticProfile_halves 2).2⟩

/-! ### C8 and C9: the identity string -/

theorem digitChar_isDigit (d : Nat) (h : d < 10) : (Nat.digitChar d).isDigit = true := by
  interval_cases d <;> rfl

theorem digitChar_value (d : Nat) (h : d < 10) : (Nat.digitChar d).toNat - 48 = d := by
  interval_cases d <;> rfl

theorem toDigitsCore_isDigit (fuel n : Nat) (ds : List Char)
    (hds : ∀ c ∈ ds, c.isDigit = true) :
    ∀ c ∈ Nat.toDigitsCore 10 fuel n ds, c.isDigit = true := by
  induction fuel generalizing n ds with
  | zero => simpa [Nat.toDigitsCore] using hds
  | succ fuel ih =>
    have hcons : ∀ c ∈ Nat.digitChar (n % 10) :: ds, c.isDigit = true := by
      intro c hc
      rcases List.mem_cons.mp hc with rfl | hc
      · exact digitChar_isDigit _ (Nat.mod_lt _ (by decide))
      · exact hds c hc
    unfold Nat.toDigitsCore
    simp only
    split
    · exact hcons
    · exact ih _ _ hcons

theorem toDigits_isDigit (n : Nat) : ∀ c ∈ Nat.toDigits 10 n, c.isDigit = true :=
  toDigitsCore_isDigit _ _ _ (fun _ h => absurd h (List.not_mem_nil _))

theorem toDigits_ne_underscore (n : Nat) : ∀ c ∈ Nat.toDigits 10 n, c ≠ '_' := by
  intro c hc e
  have h := toDigits_isDigit n c hc
  rw [e] at h
  exact absurd h (by decide)

theorem decimalValue_toDigitsCore (fuel n : Nat) (ds : List Char) (h : n < fuel) :
    decimalValue (Nat.toDigitsCore 10 fuel n ds) 0 = decimalValue ds n := by
  induction fuel generalizing n ds with
  | zero => omega
  | succ fuel ih =>
    unfold Nat.toDigitsCore
    simp only
    split
    · rename_i h0
      simp only [decimalValue, List.foldl_cons, digitChar_value _ (Nat.mod_lt n (by decide : 0 < 10))]
      congr 1
      omega
    · rename_i h0
      rw [ih (n / 10) _ (by omega)]
      simp only [decimalValue, List.foldl_cons, digitChar_value _ (Nat.mod_lt n (by decide : 0 < 10))]
      congr 1
      omega

theorem decimalValue_toDigits (n : Nat) : decimalValue (Nat.toDigits 10 n) 0 = n := by
  have h := decimalValue_toDigitsCore (n + 1) n [] (by omega)
  simpa [Nat.toDigits, decimalValue] using h

theorem toDigits_injective (m n : Nat) (h : Nat.toDigits 10 m = Nat.toDigits 10 n) : m = n := by
  rw [← decimalValue_toDigits m, h, decimalValue_toDigits]

theorem append_sep_inj (sep : Char) (a b r s : List Char) (ha : ∀ c ∈ a, c ≠ sep)
    (hb : ∀ c ∈ b, c ≠ sep) (h : a ++ sep :: r = b ++ sep :: s) : a = b ∧ r = s := by
  induction a generalizing b with
  | nil =>
    cases b with
    | nil => simpa using h
    | cons c b =>
      simp only [List.nil_append, List.cons_append, List.cons.injEq] at h
      exact absurd h.1.symm (hb c (List.mem_cons_self _ _))
  | cons c a ih =>
    cases b with
    | nil =>
      simp only [List.nil_append, List.cons_append, List.cons.injEq] at h
      exact absurd h.1 (ha c (List.mem_cons_self _ _))
    | cons d b =>
      simp only [List.cons_append, List.cons.injEq] at h
      obtain ⟨hab, hrs⟩ := ih b (fun c hc => ha c (List.mem_cons_of_mem _ hc))
        (fun c hc => hb c (List.mem_cons_of_mem _ hc)) h.2
      exact ⟨by rw [h.1, hab], hrs⟩

theorem str_data (k : TileKey) :
    (str k).data =
      Nat.toDigits 10 k._lod ++ '_' :: (Nat.toDigits 10 k._x ++ '_' :: Nat.toDigits 10 k._y) := by
  simp [str, Nat.repr, List.asString, String.data_append]

/-- C8: for every address `str` is the decimal rendering of the level, "_",
the decimal rendering of the column, "_", the decimal rendering of the row,
where the rendering of a number consists of digits that read back as the
number; so an address with the same level, column and row has the same
string, whatever its profile and cache. -/
theorem str_format (k k1 : TileKey) (hl : k1._lod = k._lod) (hx : k1._x = k._x) (hy : k1._y = k._y) :
    str k = Nat.repr k._lod ++ "_" ++ Nat.repr k._x ++ "_" ++ Nat.repr k._y ∧
    (∀ n, decimalValue (Nat.repr n).data 0 = n ∧ ∀ c ∈ (Nat.repr n).data, c.isDigit = true) ∧
    str k1 = str k := by
  refine ⟨?_, ?_, ?_⟩
  · simp only [str, String.empty_append]
  · intro n
    exact ⟨decimalValue_toDigits n, toDigits_isDigit n⟩
  · simp only [str, hl, hx, hy]

/-- C8, witness: the address (3, 2) of level 5 in two different profiles. -/
theorem str_format_witness :
    (create 3 2 5 mercatorProfile)._lod = (create 3 2 5 geodeticProfile)._lod ∧
    (create 3 2 5 mercatorProfile)._x = (create 3 2 5 geodeticProfile)._x ∧
    (create 3 2 5 mercatorProfile)._y = (create 3 2 5 geodeticProfile)._y ∧
    (str (create 3 2 5 geodeticProfile) =
      Nat.repr (create 3 2 5 geodeticProfile)._lod ++ "_" ++
        Nat.repr (create 3 2 5 geodeticProfile)._x ++ "_" ++
        Nat.repr (create 3 2 5 geodeticProfile)._y ∧
    (∀ n, decimalValue (Nat.repr n).data 0 = n ∧ ∀ c ∈ (Nat.repr n).data, c.isDigit = true) ∧
    str (create 3 2 5 mercatorProfile) = str (create 3 2 5 geodeticProfile)) ∧
    str (create 3 2 5 geodeticProfile) = "5_3_2" :=
  ⟨rfl, rfl, rfl,
    str_format (create 3 2 5 geodeticProfile) (create 3 2 5 mercatorProfile) rfl rfl rfl,
    by decide⟩

/-- C9: two addresses with the same `str` have the same level, the same
column and the same row. -/
theorem str_injective (a b : TileKey) (h : str a = str b) :
    a._lod = b._lod ∧ a._x = b._x ∧ a._y = b._y := by
  have hd : (str a).data = (str b).data := by rw [h]
  rw [str_data, str_data] at hd
  obtain ⟨h1, hd⟩ := append_sep_inj '_' _ _ _ _ (toDigits_ne_underscore _)
    (toDigits_ne_underscore _) hd
  obtain ⟨h2, h3⟩ := append_sep_inj '_' _ _ _ _ (toDigits_ne_underscore _)
    (toDigits_ne_underscore _) hd
  exact ⟨toDigits_injective _ _ h1, toDigits_injective _ _ h2, toDigits_injective _ _ h3⟩

/-- C9, witness: two keys with the string "12_345_6", of different profiles
and with different caches. -/
theorem str_injective_witness :
    str (create 345 6 12 geodeticProfile) =
      str (setSubkey (create 345 6 12 mercatorProfile) 0 (create 690 12 13 mercatorProfile)) ∧
    (create 345 6 12 geodeticProfile)._lod =
      (setSubkey (create 345 6 12 mercatorProfile) 0 (create 690 12 13 mercatorProfile))._lod ∧
    (create 345 6 12 geodeticProfile)._x =
      (setSubkey (create 345 6 12 mercatorProfile) 0 (create 690 12 13 mercatorProfile))._x ∧
    (create 345 6 12 geodeticProfile)._y =
      (setSubkey (create 345 6 12 mercatorProfile) 0 (create 690 12 13 mercatorProfile))._y :=
  ⟨by decide, str_injective (create 345 6 12 geodeticProfile)
    (setSubkey (create 345 6 12 mercatorProfile) 0 (create 690 12 13 mercatorProfile))
    (by decide)⟩

/-! ### C10: pixel extents -/

theorem unsignedToInt_range (v : Nat) (h : v < 4294967296) :
    -2147483648 ≤ unsignedToInt v ∧ unsignedToInt v ≤ 2147483647 := by
  unfold unsignedToInt
  split <;> omega

theorem floor_two_pow (level : Nat) : ⌊(2 : ℚ) ^ level⌋ = ((2 ^ level : Nat) : Int) := by
  have h : (2 : ℚ) ^ level = ((2 ^ level : Nat) : ℚ) := by push_cast; rfl
  rw [h, Int.floor_natCast]

theorem getMapSizeTiles_of_le (level : Nat) (h : level ≤ 30) :
    Static.getMapSizeTiles level = .ok ((2 ^ level : Nat) : Int) := by
  have hp : 2 ^ level ≤ 2 ^ 30 := Nat.pow_le_pow_right (by decide) h
  have h0 : (0 : ℚ) ≤ 2 ^ level := by positivity
  unfold Static.getMapSizeTiles doubleToInt
  simp only [if_pos h0, floor_two_pow]
  generalize 2 ^ level = n at hp
  rw [if_pos]
  constructor <;> omega

theorem getMapSizeTiles_of_ge (level : Nat) (h : 31 ≤ level) :
    Static.getMapSizeTiles level = .error .UndefinedBehaviour := by
  have hp : 2 ^ 31 ≤ 2 ^ level := Nat.pow_le_pow_right (by decide) h
  have h0 : (0 : ℚ) ≤ 2 ^ level := by positivity
  unfold Static.getMapSizeTiles doubleToInt
  simp only [if_pos h0, floor_two_pow]
  generalize 2 ^ level = n at hp
  rw [if_neg]
  intro hc
  omega

/-- C12, counterexample: 256 * 2^23 is 2^31 and does not fit `int`; the call
returns -2147483648 and no `ArithmeticOverflow`. -/
theorem getMapSizePixels_overflow_counterexample :
    ¬ ((256 * 2 ^ 23 : Int) ≤ 2147483647) ∧
    Static.getMapSizePixels 256 23 = .ok (-2147483648) ∧
    Static.getMapSizePixels 256 23 ≠ .error .ArithmeticOverflow := by
  refine ⟨by decide, rfl, ?_⟩
  intro h
  have h2 : Static.getMapSizePixels 256 23 = .ok (-2147483648) := rfl
  rw [h2] at h
  simp at h

/-- C12, amended: for every tile size and every level below 32 such that
tileSize * 2^level is 2^31 or more, `getMapSizePixels` returns a value without
error: the low 32 bits of the product read as an `int`, which differs from
the product. No call of `getMapSizePixels` gives `ArithmeticOverflow`. -/
theorem getMapSizePixels_overflow (tile_size lod : Nat) (hl : lod < 32)
    (hbig : 2 ^ 31 ≤ tile_size * 2 ^ lod) :
    (∃ v, Static.getMapSizePixels tile_size lod = .ok v ∧
      v = unsignedToInt ((tile_size * 2 ^ lod) % 2 ^ 32) ∧
      v ≠ ((tile_size * 2 ^ lod : Nat) : Int)) ∧
    (∀ t l, Static.getMapSizePixels t l ≠ .error .ArithmeticOverflow) := by
  refine ⟨⟨_, ?_, rfl, ?_⟩, ?_⟩
  · unfold Static.getMapSizePixels
    rw [if_pos hl]
    rfl
  · have hr := unsignedToInt_range ((tile_size * 2 ^ lod) % 2 ^ 32)
      (Nat.mod_lt _ (by norm_num))
    generalize unsignedToInt ((tile_size * 2 ^ lod) % 2 ^ 32) = v at hr
    generalize tile_size * 2 ^ lod = n at hbig
    omega
  · intro t l
    unfold Static.getMapSizePixels
    split <;> simp

/-- C12, witness: tile size 256 at level 24. -/
theorem getMapSizePixels_overflow_witness :
    24 < 32 ∧ 2 ^ 31 ≤ 256 * 2 ^ 24 ∧
    (∃ v, Static.getMapSizePixels 256 24 = .ok v ∧
      v = unsignedToInt ((256 * 2 ^ 24) % 2 ^ 32) ∧
      v ≠ ((256 * 2 ^ 24 : Nat) : Int)) ∧
    (∀ t l, Static.getMapSizePixels t l ≠ .error .ArithmeticOverflow) :=
  ⟨by decide, by decide, getMapSizePixels_overflow 256 24 (by decide) (by decide)⟩

/-- C13, counterexample: at level 31 the power 2^31 is not a value of `int`;
the conversion is undefined and the result is not 2^31. -/
theorem getMapSizeTiles_counterexample :
    Static.getMapSizeTiles 31 = .error .UndefinedBehaviour ∧
    Static.getMapSizeTiles 31 ≠ .ok ((2 ^ 31 : Nat) : Int) := by
  have h := getMapSizeTiles_of_ge 31 (le_refl _)
  refine ⟨h, ?_⟩
  rw [h]
  simp

/-- C13, amended: for every level up to 30, `getMapSizeTiles` is exactly
2^level, for the static form and for the method of an address of that level;
from level 31 on the conversion to `int` is undefined. -/
theorem getMapSizeTiles_exact (level : Nat) (k : TileKey) (h : level ≤ 30)
    (hk : k._lod = level) :
    Static.getMapSizeTiles level = .ok ((2 ^ level : Nat) : Int) ∧
    getMapSizeTiles k = .ok ((2 ^ level : Nat) : Int) ∧
    (∀ l, 31 ≤ l → Static.getMapSizeTiles l = .error .UndefinedBehaviour) := by
  refine ⟨getMapSizeTiles_of_le level h, ?_, getMapSizeTiles_of_ge⟩
  unfold getMapSizeTiles getLevelOfDetail
  rw [hk]
  exact getMapSizeTiles_of_le level h

/-- C13, witness: level 4 gives 16. -/
theorem getMapSizeTiles_exact_witness :
    4 ≤ 30 ∧ (create 3 2 4 geodeticProfile)._lod = 4 ∧
    (Static.getMapSizeTiles 4 = .ok ((2 ^ 4 : Nat) : Int) ∧
      getMapSizeTiles (create 3 2 4 geodeticProfile) = .ok ((2 ^ 4 : Nat) : Int) ∧
      (∀ l, 31 ≤ l → Static.getMapSizeTiles l = .error .UndefinedBehaviour)) ∧
    ((2 ^ 4 : Nat) : Int) = 16 :=
  ⟨by decide, rfl, getMapSizeTiles_exact 4 (create 3 2 4 geodeticProfile) (by decide) rfl,
    by decide⟩

/-! ### C14 and C15: the geographic extent -/

/-- C15: for every profile whose tile dimensions at level 0 are the width
and the height of its extent, the `getGeoExtent` of a root address (column 0,
row 0, level 0) has the four bounds of the extent of the profile and the
spatial reference of the profile. -/
theorem getGeoExtent_root (k : TileKey) (hx : k._x = 0) (hy : k._y = 0) (hl : k._lod = 0)
    (hw : (k._profile.getTileDimensions 0).1 =
      k._profile.getExtent.xMax - k._profile.getExtent.xMin)
    (hh : (k._profile.getTileDimensions 0).2 =
      k._profile.getExtent.yMax - k._profile.getExtent.yMin) :
    (getGeoExtent k).xMin = k._profile.getExtent.xMin ∧
    (getGeoExtent k).yMin = k._profile.getExtent.yMin ∧
    (getGeoExtent k).xMax = k._profile.getExtent.xMax ∧
    (getGeoExtent k).yMax = k._profile.getExtent.yMax ∧
    (getGeoExtent k).srs = k._profile.getSRS := by
  simp only [getGeoExtent, hx, hy, hl, hw, hh]
  push_cast
  refine ⟨?_, ?_, ?_, ?_, trivial⟩ <;> ring

/-- C15, witness: the root of the geodetic profile, extent (-180, -90, 180, 90)
with level 0 dimensions (360, 180), has extent (-180, -90, 180, 90). -/
theorem getGeoExtent_root_witness :
    (create 0 0 0 geodeticProfile)._x = 0 ∧ (create 0 0 0 geodeticProfile)._y = 0 ∧
    (create 0 0 0 geodeticProfile)._lod = 0 ∧
    ((create 0 0 0 geodeticProfile)._profile.getTileDimensions 0).1 =
      (create 0 0 0 geodeticProfile)._profile.getExtent.xMax -
        (create 0 0 0 geodeticProfile)._profile.getExtent.xMin ∧
    ((create 0 0 0 geodeticProfile)._profile.getTileDimensions 0).2 =
      (create 0 0 0 geodeticProfile)._profile.getExtent.yMax -
        (create 0 0 0 geodeticProfile)._profile.getExtent.yMin ∧
    ((getGeoExtent (create 0 0 0 geodeticProfile)).xMin =
        (create 0 0 0 geodeticProfile)._profile.getExtent.xMin ∧
      (getGeoExtent (create 0 0 0 geodeticProfile)).yMin =
        (create 0 0 0 geodeticProfile)._profile.getExtent.yMin ∧
      (getGeoExtent (create 0 0 0 geodeticProfile)).xMax =
        (create 0 0 0 geodeticProfile)._profile.getExtent.xMax ∧
      (getGeoExtent (create 0 0 0 geodeticProfile)).yMax =
        (create 0 0 0 geodeticProfile)._profile.getExtent.yMax ∧
      (getGeoExtent (create 0 0 0 geodeticProfile)).srs =
        (create 0 0 0 geodeticProfile)._profile.getSRS) ∧
    (create 0 0 0 geodeticProfile)._profile.getExtent = ⟨⟨4326⟩, -180, -90, 180, 90⟩ ∧
    (create 0 0 0 geodeticProfile)._profile.getTileDimensions 0 = (360, 180) :=
  ⟨rfl, rfl, rfl,
    by simp only [create, _profile, geodeticProfile]; norm_num,
    by simp only [create, _profile, geodeticProfile]; norm_num,
    getGeoExtent_root (create 0 0 0 geodeticProfile) rfl rfl rfl
      (by simp only [create, _profile, geodeticProfile]; norm_num)
      (by simp only [create, _profile, geodeticProfile]; norm_num),
    rfl,
    by simp only [create, _profile, geodeticProfile]; norm_num⟩

/-! ### C16 and C17: the cache of subkeys -/

/-- C16: for every state of an address and every quadrant 0 to 3, after a
call of `getSubkey` the slot of the quadrant holds the key returned, a second
call returns that key again and leaves the whole state as it is, and the call
changes neither `_x`, `_y`, `_lod`, `_profile` nor any other slot. -/
theorem getSubkey_cached (k : TileKey) (q : Nat) (hq : q < 4) :
    ∃ c s, getSubkey k q = .ok (c, s) ∧
      s._subkeys q = .ok (some c) ∧
      getSubkey s q = .ok (c, s) ∧
      s._x = k._x ∧ s._y = k._y ∧ s._lod = k._lod ∧ s._profile = k._profile ∧
      (∀ q1, q1 ≠ q → s._subkeys q1 = k._subkeys q1) := by
  obtain ⟨o, ho⟩ := subkeys_of_lt k q hq
  cases o with
  | some c =>
    have hg : getSubkey k q = .ok (c, k) := by
      unfold getSubkey; rw [ho]
    exact ⟨c, k, hg, ho, hg, rfl, rfl, rfl, rfl, fun _ _ => rfl⟩
  | none =>
    have hg : ∃ c, getSubkey k q = .ok (c, k.setSubkey q c) := by
      unfold getSubkey; rw [ho]; exact ⟨_, rfl⟩
    obtain ⟨c, hg⟩ := hg
    have hs : (k.setSubkey q c)._subkeys q = .ok (some c) := by
      rw [subkeys_setSubkey k c q q hq, if_pos rfl]
    obtain ⟨hx, hy, hl, hp⟩ := sameAddress_setSubkey k c q
    refine ⟨c, k.setSubkey q c, hg, hs, ?_, hx, hy, hl, hp, ?_⟩
    · unfold getSubkey; rw [hs]
    · intro q1 hne
      rw [subkeys_setSubkey k c q q1 hq, if_neg hne]

/-- C16, witness: quadrant 2 on an address whose slot 0 is already filled. -/
theorem getSubkey_cached_witness :
    2 < 4 ∧
    ∃ c s, getSubkey (setSubkey (create 3 2 2 geodeticProfile) 0
        (create 6 4 3 geodeticProfile)) 2 = .ok (c, s) ∧
      s._subkeys 2 = .ok (some c) ∧
      getSubkey s 2 = .ok (c, s) ∧
      s._x = (setSubkey (create 3 2 2 geodeticProfile) 0 (create 6 4 3 geodeticProfile))._x ∧
      s._y = (setSubkey (create 3 2 2 geodeticProfile) 0 (create 6 4 3 geodeticProfile))._y ∧
      s._lod = (setSubkey (create 3 2 2 geodeticProfile) 0 (create 6 4 3 geodeticProfile))._lod ∧
      s._profile =
        (setSubkey (create 3 2 2 geodeticProfile) 0 (create 6 4 3 geodeticProfile))._profile ∧
      (∀ q1, q1 ≠ 2 → s._subkeys q1 =
        (setSubkey (create 3 2 2 geodeticProfile) 0
          (create 6 4 3 geodeticProfile))._subkeys q1) :=
  ⟨by decide, getSubkey_cached
    (setSubkey (create 3 2 2 geodeticProfile) 0 (create 6 4 3 geodeticProfile)) 2 (by decide)⟩

/-- C17: for every address, with any state of its cache, the copy has the
same `_x`, `_y`, `_lod` and `_profile` and four null slots: it is the key the
constructor builds from these fields. -/
theorem copy_fields (k : TileKey) :
    (copy k)._x = k._x ∧ (copy k)._y = k._y ∧ (copy k)._lod = k._lod ∧
    (copy k)._profile = k._profile ∧
    (copy k)._subkeys 0 = .ok none ∧ (copy k)._subkeys 1 = .ok none ∧
    (copy k)._subkeys 2 = .ok none ∧ (copy k)._subkeys 3 = .ok none ∧
    copy k = create k._x k._y k._lod k._profile :=
  ⟨rfl, rfl, rfl, rfl, rfl, rfl, rfl, rfl, rfl⟩

/-! ### C18: classification of the coordinate system -/

/-- C18: for every address each of `isGeodetic`, `isMercator`, `isProjected`
is the comparison of the profile type with `TYPE_GEODETIC`, `TYPE_MERCATOR`,
`TYPE_LOCAL`, and exactly one of the three is true. -/
theorem classification_exclusive (k : TileKey) :
    (isGeodetic k = true ↔ k._profile.getProfileType = .TYPE_GEODETIC) ∧
    (isMercator k = true ↔ k._profile.getProfileType = .TYPE_MERCATOR) ∧
    (isProjected k = true ↔ k._profile.getProfileType = .TYPE_LOCAL) ∧
    ((isGeodetic k = true ∧ isMercator k = false ∧ isProjected k = false) ∨
      (isGeodetic k = false ∧ isMercator k = true ∧ isProjected k = false) ∨
      (isGeodetic k = false ∧ isMercator k = false ∧ isProjected k = true)) := by
  unfold isGeodetic isMercator isProjected
  cases k._profile.getProfileType <;> decide

/-! ### C19: the subkey of the parent that is the address -/

/-- C19: for every address of level above 0 whose level, column and row are
values of `unsigned int`, the parent exists and its subkey of quadrant
(column mod 2) + 2 * (row mod 2) has the level, column, row and profile of the
address, while its subkey of any other quadrant has not; and the subkeys of
two different quadrants of any address differ in column or row. -/
theorem getSubkey_createParentKey (k k0 : TileKey) (hl : 0 < k._lod)
    (hlr : k._lod < 2 ^ 32) (hx : k._x < 2 ^ 32) (hy : k._y < 2 ^ 32)
    (hk0 : CacheConsistent k0) :
    ∃ p, createParentKey k = some p ∧
      (∃ c s, getSubkey p (k._x % 2 + 2 * (k._y % 2)) = .ok (c, s) ∧ SameAddress c k) ∧
      (∀ q, q < 4 → q ≠ k._x % 2 + 2 * (k._y % 2) →
        ∃ c s, getSubkey p q = .ok (c, s) ∧ ¬ SameAddress c k) ∧
      (∀ q1 q2, q1 < 4 → q2 < 4 → q1 ≠ q2 →
        ∃ c1 s1 c2 s2, getSubkey k0 q1 = .ok (c1, s1) ∧ getSubkey k0 q2 = .ok (c2, s2) ∧
          (c1._x ≠ c2._x ∨ c1._y ≠ c2._y)) := by
  refine ⟨_, createParentKey_of_pos k (by omega), ?_, ?_, ?_⟩
  · obtain ⟨c, s, hg, hc⟩ :=
      getSubkey_create (k._x / 2) (k._y / 2) (k._lod - 1) k._profile
        (k._x % 2 + 2 * (k._y % 2)) (by omega)
    refine ⟨c, s, hg, ?_⟩
    rw [hc, uint_range_eq]
    refine ⟨?_, ?_, ?_, rfl⟩
    · show (2 * (k._x / 2) + _) % 4294967296 = k._x
      split <;> omega
    · show (2 * (k._y / 2) + _) % 4294967296 = k._y
      split <;> omega
    · show (k._lod - 1 + 1) % 4294967296 = k._lod
      omega
  · intro q hq hne
    obtain ⟨c, s, hg, hc⟩ :=
      getSubkey_create (k._x / 2) (k._y / 2) (k._lod - 1) k._profile q hq
    refine ⟨c, s, hg, ?_⟩
    rw [hc, uint_range_eq]
    rintro ⟨ex, ey, -, -⟩
    have ex1 : (2 * (k._x / 2) + if q = 1 ∨ q = 3 then 1 else 0) % 4294967296 = k._x := ex
    have ey1 : (2 * (k._y / 2) + if q = 2 ∨ q = 3 then 1 else 0) % 4294967296 = k._y := ey
    split at ex1 <;> split at ey1 <;> omega
  · intro q1 q2 h1 h2 hne
    obtain ⟨c1, s1, g1, x1, y1, -, -, -, -, -⟩ := getSubkey_consistent k0 q1 hk0 h1
    obtain ⟨c2, s2, g2, x2, y2, -, -, -, -, -⟩ := getSubkey_consistent k0 q2 hk0 h2
    refine ⟨c1, s1, c2, s2, g1, g2, ?_⟩
    rw [x1, x2, y1, y2, uint_range_eq]
    by_contra hcon
    obtain ⟨ex, ey⟩ := not_or.mp hcon
    have ex1 := not_not.mp ex
    have ey1 := not_not.mp ey
    split at ex1 <;> split at ex1 <;> split at ey1 <;> split at ey1 <;> omega

/-- C19, witness: the address (7, 4) of level 3, whose quadrant in its parent
is 1, and the subkeys of the address (3, 2) of level 2. -/
theorem getSubkey_createParentKey_witness :
    0 < (create 7 4 3 geodeticProfile)._lod ∧
    (create 7 4 3 geodeticProfile)._lod < 2 ^ 32 ∧
    (create 7 4 3 geodeticProfile)._x < 2 ^ 32 ∧
    (create 7 4 3 geodeticProfile)._y < 2 ^ 32 ∧
    CacheConsistent (create 3 2 2 geodeticProfile) ∧
    ∃ p, createParentKey (create 7 4 3 geodeticProfile) = some p ∧
      (∃ c s, getSubkey p ((create 7 4 3 geodeticProfile)._x % 2 +
          2 * ((create 7 4 3 geodeticProfile)._y % 2)) = .ok (c, s) ∧
        SameAddress c (create 7 4 3 geodeticProfile)) ∧
      (∀ q, q < 4 → q ≠ (create 7 4 3 geodeticProfile)._x % 2 +
          2 * ((create 7 4 3 geodeticProfile)._y % 2) →
        ∃ c s, getSubkey p q = .ok (c, s) ∧ ¬ SameAddress c (create 7 4 3 geodeticProfile)) ∧
      (∀ q1 q2, q1 < 4 → q2 < 4 → q1 ≠ q2 →
        ∃ c1 s1 c2 s2, getSubkey (create 3 2 2 geodeticProfile) q1 = .ok (c1, s1) ∧
          getSubkey (create 3 2 2 geodeticProfile) q2 = .ok (c2, s2) ∧
          (c1._x ≠ c2._x ∨ c1._y ≠ c2._y)) :=
  ⟨by decide, by decide, by decide, by decide, cacheConsistent_create _ _ _ _,
    getSubkey_createParentKey (create 7 4 3 geodeticProfile) (create 3 2 2 geodeticProfile)
      (by decide) (by decide) (by decide) (by decide) (cacheConsistent_create _ _ _ _)⟩

/-! ### C20: the pixel extent lies inside the map -/

end osgEarth.TileKey
